import Mathlib

/-!
Verification of the `jobber` remote job runner (Go) against its
natural-language specification. The definitions below are a shallow
embedding of the Go source: `job/job.go`, `job/tracker.go`,
`job/feeder.go`, `job/disklimits.go` (`DiskIOLimits`), `service/fake.go`
and `cli/argmaker.go`. Go machine integers are modelled as `Nat`/`Int`
with explicit truncation where the source converts or masks; Go maps are
modelled as association lists; fallible code returns `Option`/`Except`.
-/

namespace Jobber

/-! ## Data model (job/job.go) -/

/-- Job lifecycle states, from the `JobState` constants in job/job.go
(`JobStatePreStart`, `JobStateRunning`, `JobStateCompleted`). -/
inductive JobState where
  | preStart
  | running
  | completed
deriving DecidableEq, Repr

/-- Embedding of `JobStatus` (job/job.go). `startTime` is an absolute
instant modelled as an integer; `exitCode` is a Go `uint32` modelled as a
`Nat` kept below `2^32`; `exitError` is the error string, if any. -/
structure JobStatus where
  startTime : Int := 0
  owner : String := ""
  state : JobState := JobState.preStart
  exitCode : Nat := 0
  exitError : Option String := none
deriving DecidableEq, Repr

/-- Embedding of `JobSpec` (job/job.go), restricted to the fields the
tracker-level claims depend on. -/
structure JobSpec where
  command : String := ""
  args : List String := []
deriving DecidableEq, Repr

/-- Embedding of `Job` (job/job.go): identifier, spec and status. The
live references (`cmd`, `logFeeder`, channels) are modelled separately by
the launcher/feeder functions below. -/
structure Job where
  id : String := ""
  spec : JobSpec := {}
  status : JobStatus := {}
deriving DecidableEq, Repr

/-- Embedding of `JobDescription` (job/job.go): the snapshot returned by
`Job.Description()`. -/
structure JobDescription where
  id : String
  spec : JobSpec
  status : JobStatus
deriving DecidableEq, Repr

/-- `Job.Description()` (job/job.go): a copy of the job's data fields. -/
def Job.description (j : Job) : JobDescription :=
  { id := j.id, spec := j.spec, status := j.status }

/-! ## Signals and the stop path (job/job.go `Job.Stop`) -/

/-- POSIX signals that the stop path may send. -/
inductive Signal where
  | sigterm
  | sigkill
deriving DecidableEq, Repr

/-- Events performed by `Job.Stop` (job/job.go), in program order. -/
inductive StopEvent where
  | signal (s : Signal)
  /-- Block until the reap routine closes `reaped`, or the caller's
  context is cancelled (the `select` at the end of `Job.Stop`). -/
  | waitForReap
deriving DecidableEq, Repr

/-- The exact event trace of `Job.Stop` (job/job.go lines 139-156): it
calls `j.cmd.Process.Kill()` — SIGKILL — immediately (the comment in the
source reads "XXX No SIGTERM, No grace period"), then waits for the job
to be reaped or for the context to be cancelled. There is no SIGTERM and
no 10-second grace timer anywhere in the body. -/
def jobStopTrace : List StopEvent :=
  [StopEvent.signal Signal.sigkill, StopEvent.waitForReap]

/-! ## Launch (job/job.go `Job.Start` / `ExecPart1`) -/

/-- Outcome of `ExecPart1` (job/job.go): the spawn either fails outright
(`cmd.Start()` error or an unreadable stderr pipe), fails with the
child's setup diagnostic (non-empty bytes on the setup-error pipe), or
succeeds (empty read on the setup-error pipe). Both failure forms return
an error from `ExecPart1`; they are collapsed into `fail` carrying the
message. -/
inductive LaunchResult where
  | ok
  | fail (msg : String)
deriving DecidableEq, Repr

/-- Embedding of `Job.Start` (job/job.go lines 85-135). Mirrors the
source statement by statement: if the state is not `PreStart` it returns
the `ErrAlreadyStarted` error and changes nothing; otherwise it first
sets `State = Running`, `StartTime`, `Owner`, and only then attempts the
launch. On a launch failure it returns the error; the assignment that
would move the state off `Running` is commented out in the source
(`// j.Status.State = JobStateCompleted`), so the mutated status keeps
`State = Running`. Returns the job as mutated together with the error,
if any. -/
def jobStart (j : Job) (owner : String) (now : Int) (launch : LaunchResult) :
    Job × Option String :=
  if j.status.state ≠ JobState.preStart then
    (j, some "job already started")
  else
    let j' := { j with status :=
      { j.status with state := JobState.running, startTime := now, owner := owner } }
    match launch with
    | LaunchResult.fail msg => (j', some msg)
    | LaunchResult.ok => (j', none)

/-! ## Reaping (job/job.go `Job.Start` reap goroutine, lines 110-131) -/

/-- Result of `cmd.Wait()` as seen by the reap goroutine: `success` when
`Wait` returns nil (the child exited with status 0), `exited c` when it
returns an `*exec.ExitError` whose `ExitCode()` is `c` (`-1` when the
child was terminated by a signal). -/
inductive WaitResult where
  | success
  | exited (code : Int)
deriving DecidableEq, Repr

/-- Go's `uint32(i)` conversion of a (signed) `int` value: reduction
modulo `2^32`. -/
def uint32Of (i : Int) : Nat := (i % (2 ^ 32 : Nat)).toNat

/-- Embedding of the reap goroutine body (job/job.go lines 119-130): if
`Wait` returned an `*exec.ExitError`, record
`ExitCode = uint32(exitErr.ExitCode()) & 0xFF`; record the exit error;
set the state to `Completed`; call `cleanupCgroup` (job/job.go lines
235-243), which removes `/sys/fs/cgroup/jobber/<id>`. The boolean in the
result records that the cgroup directory removal was invoked. -/
def reap (j : Job) (w : WaitResult) : Job × Bool :=
  let st :=
    match w with
    | WaitResult.success =>
        { j.status with exitError := none, state := JobState.completed }
    | WaitResult.exited c =>
        { j.status with
            exitCode := uint32Of c &&& 0xFF
            exitError := some "exit status"
            state := JobState.completed }
  ({ j with status := st }, true)

/-! ## ID allocation (job/tracker.go `Tracker.allocateID`) -/

/-- Go's `path/filepath.Base` on Unix, operating on the string as a list
of characters: empty path gives ".", trailing slashes are stripped, the
part after the last remaining slash is kept, and an all-slash path gives
"/". -/
def filepathBaseChars (s : List Char) : List Char :=
  let stripped := (s.reverse.dropWhile (· = '/')).reverse
  if s = [] then ['.']
  else if stripped = [] then ['/']
  else ((stripped.reverse.takeWhile (· ≠ '/')).reverse)

/-- `filepath.Base` lifted to `String`. -/
def filepathBase (s : String) : String :=
  String.mk (filepathBaseChars s.data)

/-- Lowercase hexadecimal digit for `d < 16`, as produced by
`strconv.FormatUint(_, 16)`. -/
def hexDigitChar (d : Nat) : Char :=
  if d < 10 then Char.ofNat (48 + d) else Char.ofNat (87 + d)

/-- Little-endian base-16 digit cutting by repeated division, with
explicit structural fuel (a fuel of `n + 1` always suffices since the
argument strictly shrinks). -/
def hexDigitsLEAux : Nat → Nat → List Nat
  | _, 0 => []
  | n, fuel + 1 => if n < 16 then [n] else n % 16 :: hexDigitsLEAux (n / 16) fuel

/-- Little-endian base-16 digit list of `n`; never empty, and with no
leading zero except for `n = 0` itself. -/
def hexDigitsLE (n : Nat) : List Nat := hexDigitsLEAux n (n + 1)

/-- Embedding of `strconv.FormatUint(v, 16)`: the most-significant-first
hexadecimal digit string of `v`, lowercase, with no padding. -/
def formatUintHex (v : Nat) : List Char :=
  ((hexDigitsLE v).map hexDigitChar).reverse

/-- One candidate of `Tracker.allocateID` (job/tracker.go lines 204-210):
`filepath.Base(spec.Command) + "-" + strconv.FormatUint(uint64(rand.Uint32()), 16)`.
`r` is the value returned by `rand.Uint32()` (so `r < 2^32` at every
call site). -/
def makeID (command : String) (r : Nat) : String :=
  String.mk (filepathBaseChars command.data ++ '-' :: formatUintHex r)

/-- Embedding of the `Tracker.allocateID` retry loop (job/tracker.go
lines 201-212) fed by a finite prefix `rs` of the `rand.Uint32()`
stream: the first candidate id not already a key of the jobs map is
returned. The source loops without bound; the embedding returns `none`
when the supplied entropy prefix is exhausted. -/
def allocateID (jobs : List (String × Job)) (command : String) :
    List Nat → Option String
  | [] => none
  | r :: rs =>
      let id := makeID command r
      if (List.lookup id jobs).isSome then allocateID jobs command rs
      else some id

/-! ## Tracker (job/tracker.go) -/

/-- Errors returned by the tracker, from the `errors.New` values at the
top of job/tracker.go. `notStarted msg` wraps the launch failure message
as `Tracker.Start` does with `%w: %v`. -/
inductive TrackerError where
  | unauthorized
  | noCommand
  | notStarted (msg : String)
  | unknown (id : String)
deriving DecidableEq, Repr

/-- Embedding of `Tracker` (job/tracker.go): the jobs map as an
association list keyed by id, and the admin set as a list of identity
strings. -/
structure Tracker where
  jobs : List (String × Job) := []
  admins : List String := []
deriving DecidableEq, Repr

/-- A request context carries an identity (`GetUserFromContext`) or
does not. -/
def Ctx := Option String

/-- Embedding of `Tracker.Start` (job/tracker.go lines 58-81): requires
an identity, requires a non-empty command, allocates a fresh id, builds
the job with `NewJob` and starts it; on a start error the job is not
inserted ("don't track a job we can't start"), otherwise it is inserted
under its id. `now` is the current time and `rs` the `rand.Uint32()`
stream prefix consumed by `allocateID`. -/
def trackerStart (t : Tracker) (ctx : Ctx) (spec : JobSpec) (now : Int)
    (rs : List Nat) (launch : LaunchResult) :
    Tracker × Except TrackerError String :=
  match ctx with
  | none => (t, Except.error TrackerError.unauthorized)
  | some user =>
    if spec.command = "" then (t, Except.error TrackerError.noCommand)
    else
      match allocateID t.jobs spec.command rs with
      | none => (t, Except.error (TrackerError.notStarted "entropy exhausted"))
      | some id =>
        let j : Job := { id := id, spec := spec }
        match jobStart j user now launch with
        | (_, some msg) => (t, Except.error (TrackerError.notStarted msg))
        | (j', none) => ({ t with jobs := (id, j') :: t.jobs }, Except.ok id)

/-- Embedding of `Tracker.Stop` (job/tracker.go lines 85-116): requires
an identity; `Unknown` for an untracked id; `Unauthorized` when the
caller is neither the job's owner nor an admin; otherwise calls
`Job.Stop` if the job is running (recorded as the emitted
`jobStopTrace`) and, when `cleanup` is set, calls `Job.Cleanup` and
deletes the map entry. Returns the updated tracker, the stop events
performed on the job, and the result. -/
def trackerStop (t : Tracker) (ctx : Ctx) (id : String) (cleanup : Bool) :
    Tracker × List StopEvent × Except TrackerError Unit :=
  match ctx with
  | none => (t, [], Except.error TrackerError.unauthorized)
  | some user =>
    match List.lookup id t.jobs with
    | none => (t, [], Except.error (TrackerError.unknown id))
    | some j =>
      if j.status.owner ≠ user ∧ ¬ t.admins.contains user then
        (t, [], Except.error TrackerError.unauthorized)
      else
        let events := if j.status.state = JobState.running then jobStopTrace else []
        let t' := if cleanup then { t with jobs := t.jobs.filter (fun p => p.1 ≠ id) } else t
        (t', events, Except.ok ())

/-- Embedding of `Tracker.Get` (job/tracker.go lines 121-144): the same
identity and ownership checks as `Stop`, returning the job description
snapshot on success. The tracker is not modified (the source only
reads). -/
def trackerGet (t : Tracker) (ctx : Ctx) (id : String) :
    Except TrackerError JobDescription :=
  match ctx with
  | none => Except.error TrackerError.unauthorized
  | some user =>
    match List.lookup id t.jobs with
    | none => Except.error (TrackerError.unknown id)
    | some j =>
      if j.status.owner ≠ user ∧ ¬ t.admins.contains user then
        Except.error TrackerError.unauthorized
      else
        Except.ok j.description

/-- Embedding of `Tracker.GetLogChannel` (job/tracker.go lines 177-199):
identity and ownership checks as for `Stop`; on success the source
attaches an outfeed to the job's feeder (`Job.AttachOutfeed`), recorded
here as the `(id, follow)` pair of the attachment. -/
def trackerGetLogChannel (t : Tracker) (ctx : Ctx) (id : String) (follow : Bool) :
    Except TrackerError (String × Bool) :=
  match ctx with
  | none => Except.error TrackerError.unauthorized
  | some user =>
    match List.lookup id t.jobs with
    | none => Except.error (TrackerError.unknown id)
    | some j =>
      if j.status.owner ≠ user ∧ ¬ t.admins.contains user then
        Except.error TrackerError.unauthorized
      else
        Except.ok (j.id, follow)

/-- Embedding of `Tracker.List` (job/tracker.go lines 148-171). When the
context has no identity the source returns `nil` — there is no error
return in the function's signature, so the caller receives only an empty
list. Otherwise it returns the descriptions of the jobs owned by the
caller (or of all jobs when `all` is set and the caller is an admin),
omitting completed jobs unless `completed` is set. The argument order
`completed, all` follows the source. -/
def trackerList (t : Tracker) (ctx : Ctx) (completed all : Bool) :
    List JobDescription :=
  match ctx with
  | none => []
  | some user =>
    (t.jobs.map Prod.snd).filterMap fun j =>
      if user ≠ j.status.owner ∧ ¬ (all ∧ t.admins.contains user) then none
      else if ¬ completed ∧ j.status.state = JobState.completed then none
      else some j.description

/-! ## Log records and ingest (job/feeder.go `infeed`) -/

/-- Embedding of `Log` (job/feeder.go): a timestamp and a byte line.
Bytes are `Nat` values below 256; the claims under study depend only on
line content, so the feeder-level definitions work on lines. -/
structure Log where
  timestamp : Int
  line : List Nat
deriving DecidableEq, Repr

/-- Record cutting performed by `infeed` (job/feeder.go lines 190-219).
The loop calls `bufio.Reader.ReadBytes('\n')`, which accumulates
`ReadSlice` fragments across `ErrBufferFull` and therefore always
returns one complete line up to and including the newline, however long
— the 512-byte `bufio` buffer size only sets the fragment size, as the
XXX comment in the source notes ("This just sets the minimum size of the
buffer, but it could potentially grow"). At end of stream the final
bytes, if any, are emitted without a trailing newline. `acc` is the
(reversed) partial line being accumulated. -/
def infeedLinesAux : List Nat → List Nat → List (List Nat)
  | [], acc => if acc = [] then [] else [acc.reverse]
  | b :: bs, acc =>
      if b = 10 then (b :: acc).reverse :: infeedLinesAux bs []
      else infeedLinesAux bs (b :: acc)

/-- The sequence of record lines `infeed` sends on its channel for a
full input stream read to EOF. -/
def infeedLines (input : List Nat) : List (List Nat) :=
  infeedLinesAux input []

/-! ## Fan-out delivery (job/feeder.go `feeder.Start` / `addOutfeed`) -/

/-- Records delivered to one outfeed by the `feeder.Start` select loop
(job/feeder.go lines 84-123) from cursor `pos` onward, in the sealed
case (`infeedClosed = true`, so no new records arrive and the
`feed.follow && !f.infeedClosed` parking branch is never taken): each
step sends `buffer[pos]` and advances, and when the cursor reaches the
end the outfeed is closed and removed. -/
def drainSealed (buffer : List Log) : Nat → List Log
  | pos =>
    if h : pos < buffer.length then
      buffer.get ⟨pos, h⟩ :: drainSealed buffer (pos + 1)
    else []
termination_by pos => buffer.length - pos
decreasing_by simp_wf; omega

/-- Embedding of `feeder.attachOutfeed`/`addOutfeed` (job/feeder.go
lines 59-68 and 126-148) for a subscription attached after the infeed
has closed (`infeedClosed = true`). A new outfeed starts with cursor 0.
If the cursor is already at or past the buffer end, `addOutfeed` closes
the channel immediately (the `!feed.follow || f.infeedClosed` condition
holds since the buffer is sealed); otherwise the outfeed is armed and
the select loop delivers the remaining records, closing the channel at
the end. Returns the delivered records and whether the channel was
closed. -/
def attachSealed (buffer : List Log) (follow : Bool) : List Log × Bool :=
  if buffer.length ≤ 0 ∧ (follow = false ∨ true = true) then ([], true)
  else (drainSealed buffer 0, true)

/-! ## Service-level List (service/fake.go `FakeJobExecutor.List`) -/

/-- Wire-level job status (pb.JobStatus): start time as a timestamp
instant, job id as bytes, owning user, state and exit code. -/
structure JobStatusPB where
  jobId : List Nat
  startTime : Int
  user : String
  state : JobState
  exitCode : Nat
deriving DecidableEq, Repr

/-- Embedding of Go `bytes.Compare`: lexicographic three-way comparison
of byte slices, returning -1, 0 or 1. -/
def bytesCompare : List Nat → List Nat → Int
  | [], [] => 0
  | [], _ :: _ => -1
  | _ :: _, [] => 1
  | a :: as, b :: bs =>
      if a < b then -1 else if b < a then 1 else bytesCompare as bs

/-- The `less` closure passed to `sort.Slice` in `FakeJobExecutor.List`
(service/fake.go lines 107-113): earlier start time first; on equal
start times, `bytes.Compare(a.JobId, b.JobId) < 0`. -/
def statusLess (a b : JobStatusPB) : Bool :=
  if a.startTime = b.startTime then bytesCompare a.jobId b.jobId < 0
  else a.startTime < b.startTime

/-- Insert `a` into `l` before the first element not strictly less than
`a`: the insertion step of a comparison sort parameterized by the same
`less` predicate handed to `sort.Slice`. -/
def insertByLess {α : Type} (less : α → α → Bool) (a : α) : List α → List α
  | [] => [a]
  | b :: bs => if less b a then b :: insertByLess less a bs else a :: b :: bs

/-- Comparison sort with the given `less` predicate, modelling the
`sort.Slice` call: the output is ordered so that no later element is
strictly less than an earlier one. -/
def sortByLess {α : Type} (less : α → α → Bool) : List α → List α
  | [] => []
  | a :: as => insertByLess less a (sortByLess less as)

/-- Embedding of `FakeJobExecutor.List` (service/fake.go lines 93-115)
over the contents of the job table: keep the statuses owned by `user`
(or all of them when `allJobs` is set), drop completed jobs unless
`completed` is set, then sort with the `(start_time, job_id)` comparator
via `sort.Slice`. -/
def serviceList (jobs : List JobStatusPB) (user : String)
    (allJobs completed : Bool) : List JobStatusPB :=
  sortByLess statusLess <| jobs.filterMap fun j =>
    if j.user ≠ user ∧ ¬ allJobs then none
    else if j.state = JobState.completed ∧ ¬ completed then none
    else some j

/-! ## Disk IO limits (job/disklimits.go `DiskIOLimits`) -/

/-- Embedding of `DiskIOLimits` (job/disklimits.go). The Go integer
widths (`uint32`/`uint64`) are modelled as `Nat` with explicit range
hypotheses where a claim needs them. Device paths are character
lists. -/
structure DiskIOLimits where
  device : List Char := []
  major : Nat := 0
  minor : Nat := 0
  readBPS : Nat := 0
  writeBPS : Nat := 0
  readIOPS : Nat := 0
  writeIOPS : Nat := 0
deriving DecidableEq, Repr

/-- Little-endian base-10 digit list of `n`; never empty. -/
def decDigitsLE (n : Nat) : List Nat :=
  if _h : n < 10 then [n]
  else n % 10 :: decDigitsLE (n / 10)
decreasing_by exact Nat.div_lt_self (Nat.lt_of_lt_of_le (by norm_num) (Nat.le_of_not_lt _h)) (by norm_num)

/-- Decimal digit character for `d < 10`. -/
def decDigitChar (d : Nat) : Char := Char.ofNat (48 + d)

/-- Embedding of `fmt.Sprintf("%d", v)` for an unsigned integer:
most-significant-first decimal digits, no sign, no padding. -/
def formatUintDec (v : Nat) : List Char :=
  ((decDigitsLE v).map decDigitChar).reverse

/-- Whether `c` is an ASCII decimal digit, as accepted by
`strconv.ParseUint(s, 10, bits)`. -/
def isDecDigit (c : Char) : Bool := 48 ≤ c.toNat ∧ c.toNat ≤ 57

/-- Embedding of `strconv.ParseUint(s, 10, bits)`: fails on an empty
string, on any non-digit character, and on a value that does not fit in
`bits` bits; otherwise returns the decimal value. -/
def parseUint (s : List Char) (bits : Nat) : Option Nat :=
  if s = [] then none
  else if s.all isDecDigit then
    let v := s.foldl (fun acc c => acc * 10 + (c.toNat - 48)) 0
    if v < 2 ^ bits then some v else none
  else none

/-- The `parseVal` helper of `DiskIOLimits.UnmarshalText`
(job/disklimits.go lines 34-46): an optional field that is the empty
string parses as 0; otherwise `strconv.ParseUint(s, 10, bits)`. -/
def parseVal (s : List Char) (bits : Nat) (optional : Bool) : Option Nat :=
  if optional ∧ s = [] then some 0 else parseUint s bits

/-- Embedding of `strings.Split(s, ":")`: the (never empty) list of
fields of `s` cut at every colon. -/
def splitColon : List Char → List (List Char)
  | [] => [[]]
  | c :: cs =>
      if c = ':' then [] :: splitColon cs
      else
        match splitColon cs with
        | [] => [[c]]
        | g :: gs => (c :: g) :: gs

/-- Embedding of `DiskIOLimits.String()` (job/disklimits.go lines
69-71): `fmt.Sprintf("%d:%d:%d:%d:%d:%d", Major, Minor, ReadBPS,
WriteBPS, ReadIOPS, WriteIOPS)`. -/
def DiskIOLimits.text (d : DiskIOLimits) : List Char :=
  formatUintDec d.major ++ ':' ::
    (formatUintDec d.minor ++ ':' ::
      (formatUintDec d.readBPS ++ ':' ::
        (formatUintDec d.writeBPS ++ ':' ::
          (formatUintDec d.readIOPS ++ ':' :: formatUintDec d.writeIOPS))))

/-- Embedding of `DiskIOLimits.UnmarshalText` (job/disklimits.go lines
33-67) applied to a fresh zero receiver, as kong does when decoding a
command-line argument: 5 colon-separated fields set `Device` from the
first field, 6 fields parse `Major` and `Minor` directly; the last four
fields are the optional limits; any parse failure or other field count
is an error (`none`). -/
def unmarshalDiskIOLimits (b : List Char) : Option DiskIOLimits :=
  match splitColon b with
  | [p0, p1, p2, p3, p4] => do
      let rbps ← parseVal p1 64 true
      let wbps ← parseVal p2 64 true
      let riops ← parseVal p3 32 true
      let wiops ← parseVal p4 32 true
      pure { device := p0, readBPS := rbps, writeBPS := wbps,
             readIOPS := riops, writeIOPS := wiops }
  | [p0, p1, p2, p3, p4, p5] => do
      let major ← parseVal p0 32 false
      let minor ← parseVal p1 32 false
      let rbps ← parseVal p2 64 true
      let wbps ← parseVal p3 64 true
      let riops ← parseVal p4 32 true
      let wiops ← parseVal p5 32 true
      pure { major := major, minor := minor, readBPS := rbps,
             writeBPS := wbps, readIOPS := riops, writeIOPS := wiops }
  | _ => none

/-! ## Concrete fixtures shared by the theorems -/

/-- A job in state `Running`, owned by alice. -/
def runningJob : Job :=
  { id := "sleep-0000002a"
    spec := { command := "/bin/sleep", args := ["100"] }
    status := { startTime := 5, owner := "alice", state := JobState.running } }

/-- A tracker holding `runningJob`, with carol as the only admin. -/
def t1 : Tracker :=
  { jobs := [("sleep-0000002a", runningJob)], admins := ["carol"] }

/-- A job that has not been started yet (all-default status). -/
def preJob : Job := { id := "echo-1", spec := { command := "/bin/echo" } }

/-! ## Supporting lemmas -/

/-- `infeedLinesAux` on a chunk with no newline bytes: everything is
accumulated into one pending line, emitted whole at end of stream. -/
theorem infeedLinesAux_no_newline (l : List Nat) :
    ∀ acc : List Nat, (∀ b ∈ l, b ≠ 10) →
      infeedLinesAux l acc =
        if acc.reverse ++ l = [] then [] else [acc.reverse ++ l] := by
  induction l with
  | nil =>
      intro acc _
      simp [infeedLinesAux]
  | cons b bs ih =>
      intro acc h
      have hb : b ≠ 10 := h b (List.mem_cons_self b bs)
      have hbs : ∀ x ∈ bs, x ≠ 10 := fun x hx => h x (List.mem_cons_of_mem b hx)
      simp only [infeedLinesAux, if_neg hb, ih (b :: acc) hbs]
      simp

/-- The drain loop from cursor `pos` delivers exactly the buffer suffix
starting at `pos`. -/
theorem drainSealed_eq_drop (buffer : List Log) (pos : Nat) :
    drainSealed buffer pos = buffer.drop pos := by
  rw [drainSealed]
  split
  next h =>
    rw [drainSealed_eq_drop buffer (pos + 1)]
    rw [List.drop_eq_getElem_cons h]
    rfl
  next h =>
    rw [List.drop_eq_nil_of_le (Nat.le_of_not_lt h)]
termination_by buffer.length - pos
decreasing_by simp_wf; omega

/-- An id returned by the `allocateID` loop is never an existing key of
the jobs map: the loop re-rolls on collision. -/
theorem allocateID_fresh (jobs : List (String × Job)) (cmd : String) :
    ∀ (rs : List Nat) (id : String), allocateID jobs cmd rs = some id →
      List.lookup id jobs = none := by
  intro rs
  induction rs with
  | nil => intro id h; exact absurd h (by simp [allocateID])
  | cons r rs ih =>
      intro id h
      rw [allocateID] at h
      by_cases hc : (List.lookup (makeID cmd r) jobs).isSome
      · exact ih id (by rwa [if_pos hc] at h)
      · rw [if_neg hc] at h
        cases h
        exact Option.not_isSome_iff_eq_none.mp hc

/-- Whether `c` is a lowercase hexadecimal digit (`[0-9a-f]`). -/
def isLowerHexDigit (c : Char) : Bool :=
  (48 ≤ c.toNat ∧ c.toNat ≤ 57) ∨ (97 ≤ c.toNat ∧ c.toNat ≤ 102)

/-- Decision procedure for the claim's id pattern `^[^/]+-[0-9a-f]{8}$`:
a non-empty slash-free prefix, a dash, then exactly 8 lowercase hex
digits at the end. Written from the spec's regex, to be compared with
the ids the source produces. -/
def idMatches8Hex (s : String) : Bool :=
  let r := s.data.reverse
  (r.take 8).length = 8 ∧ (r.take 8).all isLowerHexDigit ∧
  r.drop 8 ≠ [] ∧ (r.drop 8).head? = some '-' ∧
  r.drop 9 ≠ [] ∧ (r.drop 9).all (· ≠ '/')

/-! ## Claims -/

/-- C1: the claim reads "For every Stop call on a job in state Running,
the implementation first sends SIGTERM to the child process, waits up to
10 seconds for the job to reach Completed, and only then sends SIGKILL."
The source does not: `Job.Stop` (job/job.go line 143) calls
`j.cmd.Process.Kill()` — SIGKILL — as its first action, sends no SIGTERM
and has no grace timer, as its own comment ("XXX No SIGTERM, No grace
period") records; the repository's design document specifies the
SIGTERM-then-10-seconds-then-SIGKILL behaviour the claim states. This
theorem evaluates the stop path at a running job owned by the caller:
the event trace is exactly SIGKILL followed by the wait for the reaper,
with no SIGTERM anywhere. -/
theorem stop_is_immediate_sigkill :
    trackerStop t1 (some "alice") "sleep-0000002a" false =
      (t1, jobStopTrace, Except.ok ()) ∧
    jobStopTrace = [StopEvent.signal Signal.sigkill, StopEvent.waitForReap] ∧
    StopEvent.signal Signal.sigterm ∉ jobStopTrace := by
  refine ⟨rfl, rfl, by decide⟩

/-- C2: the claim reads "Every log record delivered to a subscriber has
a line of at most 512 bytes: the ingest loop cuts a record at the
earlier of a newline byte (inclusive) or 512 bytes accumulated without
one." The source does not cut at 512 bytes: `infeed` (job/feeder.go)
uses `bufio.Reader.ReadBytes('\n')`, which accumulates fragments across
`ErrBufferFull` and returns the entire line whatever its length (the
source's own XXX comment records that the chunking is still to do).
Evaluating the ingest loop on 1100 newline-free bytes yields a single
record of 1100 bytes, not three records of 512, 512 and 76 bytes. -/
theorem infeed_emits_oversized_record :
    infeedLines (List.replicate 1100 97) = [List.replicate 1100 97] ∧
    512 < (List.replicate 1100 97 : List Nat).length := by
  have hlen : (List.replicate 1100 (97 : Nat)).length = 1100 :=
    List.length_replicate 1100 97
  have hne : List.replicate 1100 (97 : Nat) ≠ [] := by
    intro h
    rw [h] at hlen
    exact absurd hlen (by norm_num)
  constructor
  · rw [infeedLines, infeedLinesAux_no_newline]
    · simp only [List.reverse_nil, List.nil_append, if_neg hne]
    · intro b hb
      rw [List.eq_of_mem_replicate hb]
      decide
  · rw [hlen]
    norm_num

/-- C3 counterexample: the claim asserts that after a launch failure
"the job's state is still PreStart". It is not: `Job.Start` (job/job.go
lines 93-95) assigns `State = Running` before attempting the launch and
never resets it on the failure path (the assignment on line 99 is
commented out), so a job whose launch failed is left in state
`Running`. -/
theorem start_failure_prestart_counterexample :
    ((jobStart preJob "alice" 7 (LaunchResult.fail "no such file")).1).status.state ≠
      JobState.preStart := by
  decide

/-- C3 (amended): if launching a job fails, `Job.Start` returns the
error and `Tracker.Start` does not insert the job into its jobs map (the
tracker is unchanged and an error is returned); however the failed job's
state is `Running`, not `PreStart`, because `Job.Start` moves the state
to `Running` before launching and does not move it back on failure. -/
theorem start_failure_not_tracked (t : Tracker) (user : String)
    (spec : JobSpec) (now : Int) (rs : List Nat) (msg : String) :
    (trackerStart t (some user) spec now rs (LaunchResult.fail msg)).1 = t ∧
    (∃ e, (trackerStart t (some user) spec now rs (LaunchResult.fail msg)).2 =
      Except.error e) ∧
    ∀ j : Job, j.status.state = JobState.preStart →
      (jobStart j user now (LaunchResult.fail msg)).2 = some msg ∧
      ((jobStart j user now (LaunchResult.fail msg)).1).status.state =
        JobState.running := by
  refine ⟨?_, ?_, ?_⟩
  · rw [trackerStart]
    by_cases hc : spec.command = ""
    · rw [if_pos hc]
    · rw [if_neg hc]
      cases halloc : allocateID t.jobs spec.command rs with
      | none => rfl
      | some id => simp [jobStart]
  · rw [trackerStart]
    by_cases hc : spec.command = ""
    · exact ⟨TrackerError.noCommand, by rw [if_pos hc]⟩
    · rw [if_neg hc]
      cases halloc : allocateID t.jobs spec.command rs with
      | none => exact ⟨TrackerError.notStarted "entropy exhausted", rfl⟩
      | some id => exact ⟨TrackerError.notStarted msg, by simp [jobStart]⟩
  · intro j hj
    rw [jobStart, if_neg (by rw [hj]; exact fun h => h rfl)]
    exact ⟨rfl, rfl⟩

/-- C3 witness: `start_failure_not_tracked` applied to the empty tracker
and a concrete failing launch, with the pre-start hypothesis discharged
on `preJob`. -/
theorem start_failure_not_tracked_witness :
    (trackerStart {} (some "alice") { command := "/bin/echo" } 7 [255]
      (LaunchResult.fail "boom")).1 = {} ∧
    ((jobStart preJob "alice" 7 (LaunchResult.fail "boom")).1).status.state =
      JobState.running :=
  ⟨(start_failure_not_tracked {} "alice" { command := "/bin/echo" } 7 [255] "boom").1,
   ((start_failure_not_tracked {} "alice" { command := "/bin/echo" } 7 [255]
      "boom").2.2 preJob (by decide)).2⟩

/-- C4: the claim asserts the id suffix is "exactly 8 lowercase
hexadecimal digits". The source (`Tracker.allocateID`, job/tracker.go
line 207) formats the random 32-bit value with
`strconv.FormatUint(_, 16)`, which does not zero-pad, so any random
value below `0x10000000` yields a shorter suffix: with
`rand.Uint32() = 255` and command `/bin/echo` the allocated id is
`echo-ff`, which fails the claim's pattern `^[^/]+-[0-9a-f]{8}$` (the
repository's design document specifies "a random 8 hex digit suffix").
The uniqueness half of the claim does hold: an id returned by the
allocation loop is never already tracked. -/
theorem allocate_id_unpadded_hex :
    allocateID [] "/bin/echo" [255] = some "echo-ff" ∧
    idMatches8Hex "echo-ff" = false ∧
    idMatches8Hex "echo-0000002a" = true ∧
    ∀ (jobs : List (String × Job)) (cmd : String) (rs : List Nat) (id : String),
      allocateID jobs cmd rs = some id → List.lookup id jobs = none := by
  exact ⟨by decide, by decide, by decide, fun jobs cmd rs id h => allocateID_fresh jobs cmd rs id h⟩

/-- C4 witness: `allocate_id_unpadded_hex` applied at the concrete
allocation, discharging its freshness hypothesis by evaluation. -/
theorem allocate_id_unpadded_hex_witness :
    List.lookup "echo-ff" ([] : List (String × Job)) = none :=
  allocate_id_unpadded_hex.2.2.2 [] "/bin/echo" [255] "echo-ff" (by decide)

/-- C9 counterexample: the claim asserts a `List` call whose context has
no identity "fails with Unauthorized returned to the caller (rather than
silently returning an empty result)". `Tracker.List` (job/tracker.go
lines 148-152) has no error return at all and returns `nil` when the
context carries no identity: on a tracker holding a job, the no-identity
call yields the empty list while an owner's call yields the job, so the
emptiness is the silent no-identity answer, not an error. -/
theorem list_no_identity_counterexample :
    trackerList t1 none true true = [] ∧
    trackerList t1 (some "alice") true true ≠ [] := by
  decide

/-- C9 (amended): every `List` call whose request context carries no
identity silently returns the empty result; `Tracker.List`'s signature
has no error value, so no `Unauthorized` failure reaches the caller. -/
theorem list_no_identity_empty (t : Tracker) (completed all : Bool) :
    trackerList t none completed all = [] := rfl

/-- C5: for every `Stop`, `Get` (Status) or `GetLogChannel` (Logs) call
on a tracked job id by an identity that is neither the job's owner nor a
configured admin, the operation fails with `Unauthorized` and does not
affect the job: the tracker is unchanged, no stop signal is sent, and
only the error is returned. This is the ownership check shared by
`Tracker.Stop`, `Tracker.Get` and `Tracker.GetLogChannel`
(job/tracker.go lines 101-104, 137-140 and 193-196). -/
theorem non_owner_non_admin_unauthorized (t : Tracker) (user id : String)
    (j : Job) (cleanup follow : Bool)
    (hj : List.lookup id t.jobs = some j)
    (howner : j.status.owner ≠ user)
    (hadmin : t.admins.contains user = false) :
    trackerStop t (some user) id cleanup =
      (t, [], Except.error TrackerError.unauthorized) ∧
    trackerGet t (some user) id = Except.error TrackerError.unauthorized ∧
    trackerGetLogChannel t (some user) id follow =
      Except.error TrackerError.unauthorized := by
  have hadmin' : user ∉ t.admins := by simpa using hadmin
  refine ⟨?_, ?_, ?_⟩ <;>
    simp [trackerStop, trackerGet, trackerGetLogChannel, hj, howner, hadmin']

/-- C5 witness: bob, who does not own alice's running job and is not the
configured admin (carol), is refused by all three operations on the
concrete tracker `t1`. -/
theorem non_owner_non_admin_unauthorized_witness :
    trackerStop t1 (some "bob") "sleep-0000002a" true =
      (t1, [], Except.error TrackerError.unauthorized) ∧
    trackerGet t1 (some "bob") "sleep-0000002a" =
      Except.error TrackerError.unauthorized ∧
    trackerGetLogChannel t1 (some "bob") "sleep-0000002a" true =
      Except.error TrackerError.unauthorized :=
  non_owner_non_admin_unauthorized t1 "bob" "sleep-0000002a" runningJob
    true true (by decide) (by decide) (by decide)

/-- C6: every subscription attached with `follow = false` after the
job's output stream has sealed (`infeedClosed = true`) receives exactly
the full buffered record sequence from index 0 in order, after which its
channel is closed: `addOutfeed` starts the cursor at 0 and the
`feeder.Start` loop delivers `buffer[pos]` and advances until the cursor
falls off the end, at which point the outfeed is closed and removed
(job/feeder.go lines 106-119 and 126-148). -/
theorem sealed_nonfollow_gets_full_buffer (buffer : List Log) :
    attachSealed buffer false = (buffer, true) := by
  rw [attachSealed]
  by_cases hb : buffer.length ≤ 0
  · rw [if_pos ⟨hb, Or.inl rfl⟩]
    rw [List.length_eq_zero.mp (Nat.le_zero.mp hb)]
  · rw [if_neg (fun h => hb h.1), drainSealed_eq_drop, List.drop_zero]

/-- C8: for every job whose child process is reaped, the recorded
exit code is the child's raw `ExitCode()` value masked to its low 8 bits
(`uint32(exitErr.ExitCode()) & 0xFF`, job/job.go line 124), which equals
the raw value reduced mod 256 — so a signal-terminated child, reported
as `-1`, records 255 — the state becomes `Completed`, and
`cleanupCgroup` removes the job's cgroup directory; likewise on a clean
exit (`Wait` returning nil). -/
theorem reap_completes_and_masks_exit_code (j : Job) (c : Int) :
    (reap j (WaitResult.exited c)).1.status.state = JobState.completed ∧
    (reap j (WaitResult.exited c)).2 = true ∧
    (reap j (WaitResult.exited c)).1.status.exitCode = (c % (256 : Int)).toNat ∧
    (c = -1 → (reap j (WaitResult.exited c)).1.status.exitCode = 255) ∧
    (reap j WaitResult.success).1.status.state = JobState.completed ∧
    (reap j WaitResult.success).2 = true := by
  have hmask : (reap j (WaitResult.exited c)).1.status.exitCode =
      (c % (256 : Int)).toNat := by
    show uint32Of c &&& 0xFF = (c % (256 : Int)).toNat
    rw [uint32Of, show (0xFF : Nat) = 2 ^ 8 - 1 by norm_num,
      Nat.and_pow_two_sub_one_eq_mod]
    omega
  refine ⟨rfl, rfl, hmask, ?_, rfl, rfl⟩
  intro hc
  rw [hmask, hc]
  decide

/-- C8 witness: `reap_completes_and_masks_exit_code` applied to a
concrete job and the signal-termination exit code `-1`, discharging the
implication's hypothesis there: the recorded exit code is 255. -/
theorem reap_completes_and_masks_exit_code_witness :
    (reap preJob (WaitResult.exited (-1))).1.status.exitCode = 255 :=
  (reap_completes_and_masks_exit_code preJob (-1)).2.2.2.1 rfl

/-! ### Sortedness of the service-level List (C7 support) -/

/-- Every element of an insertion is the inserted element or an element
of the original list. -/
theorem mem_insertByLess {α : Type} (less : α → α → Bool) (a x : α) :
    ∀ l : List α, x ∈ insertByLess less a l → x = a ∨ x ∈ l := by
  intro l
  induction l with
  | nil => intro h; simpa [insertByLess] using h
  | cons b bs ih =>
      intro h
      rw [insertByLess] at h
      by_cases hcmp : less b a
      · rw [if_pos hcmp] at h
        rcases List.mem_cons.mp h with hxb | hxs
        · exact Or.inr (hxb ▸ List.mem_cons_self b bs)
        · rcases ih hxs with hxa | hxbs
          · exact Or.inl hxa
          · exact Or.inr (List.mem_cons_of_mem b hxbs)
      · rw [if_neg hcmp] at h
        rcases List.mem_cons.mp h with hxa | hxs
        · exact Or.inl hxa
        · exact Or.inr hxs

/-- Inserting into a list ordered by "no later element strictly less"
preserves that order, given asymmetry and transitivity of the complement
of `less`. -/
theorem pairwise_insertByLess {α : Type} (less : α → α → Bool)
    (hasym : ∀ x y, less x y = true → less y x = false)
    (hneg : ∀ x y z, less y x = false → less z y = false → less z x = false)
    (a : α) :
    ∀ l : List α, l.Pairwise (fun x y => less y x = false) →
      (insertByLess less a l).Pairwise (fun x y => less y x = false) := by
  intro l
  induction l with
  | nil => intro _; simp [insertByLess]
  | cons b bs ih =>
      intro hl
      rcases List.pairwise_cons.mp hl with ⟨hb, hbs⟩
      rw [insertByLess]
      by_cases hcmp : less b a
      · rw [if_pos hcmp]
        refine List.pairwise_cons.mpr ⟨?_, ih hbs⟩
        intro y hy
        rcases mem_insertByLess less a y bs hy with hya | hybs
        · exact hya ▸ hasym b a hcmp
        · exact hb y hybs
      · rw [if_neg hcmp]
        have hba : less b a = false := Bool.not_eq_true _ ▸ eq_false_of_ne_true hcmp
        refine List.pairwise_cons.mpr ⟨?_, hl⟩
        intro y hy
        rcases List.mem_cons.mp hy with hyb | hybs
        · exact hyb ▸ hba
        · exact hneg a b y hba (hb y hybs)

/-- The comparison sort yields a list in which no later element is
strictly less than an earlier one. -/
theorem pairwise_sortByLess {α : Type} (less : α → α → Bool)
    (hasym : ∀ x y, less x y = true → less y x = false)
    (hneg : ∀ x y z, less y x = false → less z y = false → less z x = false) :
    ∀ l : List α, (sortByLess less l).Pairwise (fun x y => less y x = false) := by
  intro l
  induction l with
  | nil => simp [sortByLess]
  | cons a as ih => exact pairwise_insertByLess less hasym hneg a _ ih

/-- `bytesCompare` only takes the values -1, 0 and 1. -/
theorem bytesCompare_cases :
    ∀ as bs : List Nat, bytesCompare as bs = -1 ∨ bytesCompare as bs = 0 ∨
      bytesCompare as bs = 1 := by
  intro as
  induction as with
  | nil => intro bs; cases bs <;> simp [bytesCompare]
  | cons a as ih =>
      intro bs
      cases bs with
      | nil => simp [bytesCompare]
      | cons b bs =>
          rw [bytesCompare]
          by_cases h1 : a < b
          · rw [if_pos h1]; exact Or.inl rfl
          · rw [if_neg h1]
            by_cases h2 : b < a
            · rw [if_pos h2]; exact Or.inr (Or.inr rfl)
            · rw [if_neg h2]; exact ih bs

/-- `bytesCompare` is antisymmetric: swapping the arguments negates the
result. -/
theorem bytesCompare_swap :
    ∀ as bs : List Nat, bytesCompare as bs = -bytesCompare bs as := by
  intro as
  induction as with
  | nil => intro bs; cases bs <;> simp [bytesCompare]
  | cons a as ih =>
      intro bs
      cases bs with
      | nil => simp [bytesCompare]
      | cons b bs =>
          rw [bytesCompare, bytesCompare]
          by_cases h1 : a < b
          · rw [if_pos h1, if_neg (Nat.lt_asymm h1), if_pos h1]
          · by_cases h2 : b < a
            · rw [if_neg h1, if_pos h2, if_pos h2]
              decide
            · rw [if_neg h1, if_neg h2, if_neg h2, if_neg h1]
              exact ih bs

/-- Transitivity of the non-strict byte order `bytesCompare · · ≤ 0`. -/
theorem bytesCompare_le_trans :
    ∀ as bs cs : List Nat, bytesCompare as bs ≤ 0 → bytesCompare bs cs ≤ 0 →
      bytesCompare as cs ≤ 0 := by
  intro as
  induction as with
  | nil =>
      intro bs cs _ _
      cases cs <;> simp [bytesCompare]
  | cons a as ih =>
      intro bs cs hab hbc
      cases bs with
      | nil => rw [bytesCompare] at hab; omega
      | cons b bs =>
          cases cs with
          | nil => rw [bytesCompare] at hbc; omega
          | cons c cs =>
              rw [bytesCompare] at hab hbc ⊢
              by_cases h1 : a < b
              · -- a < b ≤ c
                have hbci : b ≤ c := by
                  by_contra hcb
                  rw [if_neg (by omega : ¬ b < c), if_pos (by omega : c < b)] at hbc
                  omega
                rw [if_pos (by omega : a < c)]
                omega
              · rw [if_neg h1] at hab
                by_cases h2 : b < a
                · rw [if_pos h2] at hab; omega
                · rw [if_neg h2] at hab
                  -- a = b
                  have hba : a = b := by omega
                  by_cases h3 : b < c
                  · rw [if_pos (hba ▸ h3)]; omega
                  · rw [if_neg h3] at hbc
                    by_cases h4 : c < b
                    · rw [if_pos h4] at hbc; omega
                    · rw [if_neg h4] at hbc
                      rw [if_neg (hba ▸ h3), if_neg (hba ▸ h4)]
                      exact ih bs cs hab hbc

/-- The `sort.Slice` comparator of `FakeJobExecutor.List` is
asymmetric. -/
theorem statusLess_asymm (x y : JobStatusPB) :
    statusLess x y = true → statusLess y x = false := by
  rw [statusLess, statusLess]
  by_cases ht : x.startTime = y.startTime
  · rw [if_pos ht, if_pos ht.symm]
    intro h
    have hlt : bytesCompare x.jobId y.jobId < 0 := by simpa using h
    have := bytesCompare_swap y.jobId x.jobId
    simp only [decide_eq_false_iff_not]
    omega
  · rw [if_neg ht, if_neg (fun h => ht h.symm)]
    intro h
    have hlt : x.startTime < y.startTime := by simpa using h
    simp only [decide_eq_false_iff_not]
    omega

/-- The complement of the comparator is transitive. -/
theorem statusLess_negtrans (x y z : JobStatusPB) :
    statusLess y x = false → statusLess z y = false → statusLess z x = false := by
  rw [statusLess, statusLess, statusLess]
  intro hyx hzy
  by_cases hxy : x.startTime = y.startTime
  · rw [if_pos hxy.symm] at hyx
    have hyx' : bytesCompare x.jobId y.jobId ≤ 0 := by
      have hswap := bytesCompare_swap y.jobId x.jobId
      have := bytesCompare_cases y.jobId x.jobId
      simp only [decide_eq_false_iff_not] at hyx
      omega
    by_cases hyz : y.startTime = z.startTime
    · rw [if_pos hyz.symm] at hzy
      have hzy' : bytesCompare y.jobId z.jobId ≤ 0 := by
        have hswap := bytesCompare_swap z.jobId y.jobId
        have := bytesCompare_cases z.jobId y.jobId
        simp only [decide_eq_false_iff_not] at hzy
        omega
      rw [if_pos (by omega : z.startTime = x.startTime)]
      have := bytesCompare_le_trans x.jobId y.jobId z.jobId hyx' hzy'
      have hswap := bytesCompare_swap z.jobId x.jobId
      simp only [decide_eq_false_iff_not]
      omega
    · rw [if_neg (fun h => hyz h.symm)] at hzy
      simp only [decide_eq_false_iff_not] at hzy
      rw [if_neg (by omega : ¬ z.startTime = x.startTime)]
      simp only [decide_eq_false_iff_not]
      omega
  · rw [if_neg (fun h => hxy h.symm)] at hyx
    simp only [decide_eq_false_iff_not] at hyx
    by_cases hyz : y.startTime = z.startTime
    · rw [if_pos hyz.symm] at hzy
      rw [if_neg (by omega : ¬ z.startTime = x.startTime)]
      simp only [decide_eq_false_iff_not]
      omega
    · rw [if_neg (fun h => hyz h.symm)] at hzy
      simp only [decide_eq_false_iff_not] at hzy
      rw [if_neg (by omega : ¬ z.startTime = x.startTime)]
      simp only [decide_eq_false_iff_not]
      omega

/-- C7: the `List` operation returns job status snapshots sorted
primarily by `start_time` ascending, with ties broken by lexicographic
comparison of `job_id`: in the response produced by the service-level
List (`FakeJobExecutor.List`, service/fake.go lines 93-115, which sorts
the filtered snapshots with exactly this comparator via `sort.Slice`),
every earlier element has a strictly earlier start time or an equal
start time and a byte-wise `≤` job id. -/
theorem service_list_sorted (jobs : List JobStatusPB) (user : String)
    (allJobs completed : Bool) :
    (serviceList jobs user allJobs completed).Pairwise
      (fun a b => a.startTime < b.startTime ∨
        (a.startTime = b.startTime ∧ bytesCompare a.jobId b.jobId ≤ 0)) := by
  rw [serviceList]
  refine List.Pairwise.imp ?_
    (pairwise_sortByLess statusLess statusLess_asymm statusLess_negtrans _)
  intro a b hba
  rw [statusLess] at hba
  by_cases ht : b.startTime = a.startTime
  · rw [if_pos ht] at hba
    simp only [decide_eq_false_iff_not] at hba
    have hswap := bytesCompare_swap b.jobId a.jobId
    have hcases := bytesCompare_cases b.jobId a.jobId
    exact Or.inr ⟨ht.symm, by omega⟩
  · rw [if_neg ht] at hba
    simp only [decide_eq_false_iff_not] at hba
    exact Or.inl (by omega)

/-! ### Decimal round trip (C10 support) -/

/-- Value of a little-endian decimal digit list. -/
def ofDigitsLE : List Nat → Nat
  | [] => 0
  | d :: ds => d + 10 * ofDigitsLE ds

/-- The digit cutting is correct: every digit is below 10, the digits
evaluate back to the number, and the list is never empty. -/
theorem decDigitsLE_spec (n : Nat) :
    (∀ d ∈ decDigitsLE n, d < 10) ∧ ofDigitsLE (decDigitsLE n) = n ∧
      decDigitsLE n ≠ [] := by
  induction n using Nat.strong_induction_on with
  | _ n ih =>
    rw [decDigitsLE]
    split
    next h =>
      refine ⟨?_, by simp [ofDigitsLE], by simp⟩
      intro d hd
      rw [List.mem_singleton.mp hd]
      exact h
    next h =>
      have hdiv : n / 10 < n := Nat.div_lt_self (by omega) (by norm_num)
      obtain ⟨h1, h2, _⟩ := ih (n / 10) hdiv
      refine ⟨?_, ?_, by simp⟩
      · intro d hd
        rcases List.mem_cons.mp hd with hdm | hdr
        · rw [hdm]; exact Nat.mod_lt n (by norm_num)
        · exact h1 d hdr
      · rw [ofDigitsLE, h2]
        exact Nat.mod_add_div n 10

/-- ASCII codepoint of a decimal digit character. -/
theorem decDigitChar_toNat (d : Nat) (h : d < 10) :
    (decDigitChar d).toNat = 48 + d := by
  interval_cases d <;> decide

/-- A decimal digit character passes `isDecDigit`. -/
theorem isDecDigit_decDigitChar (d : Nat) (h : d < 10) :
    isDecDigit (decDigitChar d) = true := by
  interval_cases d <;> decide

/-- A decimal digit character is not a colon. -/
theorem decDigitChar_ne_colon (d : Nat) (h : d < 10) :
    decDigitChar d ≠ ':' := by
  interval_cases d <;> decide

/-- The decimal accumulator fold over a most-significant-first rendering
of a digit list computes the digits' value. -/
theorem foldl_decimal (ds : List Nat) (hds : ∀ d ∈ ds, d < 10) :
    ∀ a : Nat,
      ((ds.map decDigitChar).reverse).foldl
        (fun acc c => acc * 10 + (c.toNat - 48)) a =
      a * 10 ^ ds.length + ofDigitsLE ds := by
  induction ds with
  | nil => intro a; simp [ofDigitsLE]
  | cons d ds ih =>
      intro a
      have hd : d < 10 := hds d (List.mem_cons_self d ds)
      have hds' : ∀ x ∈ ds, x < 10 := fun x hx => hds x (List.mem_cons_of_mem d hx)
      rw [List.map_cons, List.reverse_cons, List.foldl_append, ih hds' a]
      simp only [List.foldl_cons, List.foldl_nil, ofDigitsLE, List.length_cons]
      rw [decDigitChar_toNat d hd]
      have : 48 + d - 48 = d := by omega
      rw [this, pow_succ]
      ring

/-- `formatUintDec` never renders an empty string. -/
theorem formatUintDec_ne_nil (v : Nat) : formatUintDec v ≠ [] := by
  rw [formatUintDec]
  obtain ⟨_, _, hne⟩ := decDigitsLE_spec v
  intro h
  rw [List.reverse_eq_nil_iff, List.map_eq_nil_iff] at h
  exact hne h

/-- Every character rendered by `formatUintDec` is a decimal digit. -/
theorem formatUintDec_all_digits (v : Nat) :
    (formatUintDec v).all isDecDigit = true := by
  rw [formatUintDec, List.all_eq_true]
  intro c hc
  rw [List.mem_reverse, List.mem_map] at hc
  obtain ⟨d, hd, hdc⟩ := hc
  obtain ⟨h1, _, _⟩ := decDigitsLE_spec v
  rw [← hdc]
  exact isDecDigit_decDigitChar d (h1 d hd)

/-- No character rendered by `formatUintDec` is a colon. -/
theorem formatUintDec_no_colon (v : Nat) : ∀ c ∈ formatUintDec v, c ≠ ':' := by
  intro c hc
  rw [formatUintDec, List.mem_reverse, List.mem_map] at hc
  obtain ⟨d, hd, hdc⟩ := hc
  obtain ⟨h1, _, _⟩ := decDigitsLE_spec v
  rw [← hdc]
  exact decDigitChar_ne_colon d (h1 d hd)

/-- Parsing inverts rendering for any value within the bit width. -/
theorem parseUint_formatUintDec (v bits : Nat) (h : v < 2 ^ bits) :
    parseUint (formatUintDec v) bits = some v := by
  rw [parseUint, if_neg (formatUintDec_ne_nil v), if_pos (formatUintDec_all_digits v)]
  obtain ⟨h1, h2, _⟩ := decDigitsLE_spec v
  rw [formatUintDec, foldl_decimal _ h1 0, h2]
  simp only [Nat.zero_mul, Nat.zero_add]
  rw [if_pos h]

/-- `parseVal` on a rendered value: the rendering is never empty, so the
optional-empty shortcut is not taken and parsing inverts rendering. -/
theorem parseVal_formatUintDec (v bits : Nat) (opt : Bool) (h : v < 2 ^ bits) :
    parseVal (formatUintDec v) bits opt = some v := by
  rw [parseVal, if_neg (fun hc => formatUintDec_ne_nil v hc.2)]
  exact parseUint_formatUintDec v bits h

/-- Splitting at the first colon after a colon-free field yields the
field followed by the split of the remainder. -/
theorem splitColon_append (f : List Char) (rest : List Char)
    (hf : ∀ c ∈ f, c ≠ ':') :
    splitColon (f ++ ':' :: rest) = f :: splitColon rest := by
  induction f with
  | nil => simp [splitColon]
  | cons c f ih =>
      have hc : c ≠ ':' := hf c (List.mem_cons_self c f)
      have hf' : ∀ x ∈ f, x ≠ ':' := fun x hx => hf x (List.mem_cons_of_mem c hx)
      rw [List.cons_append, splitColon, if_neg hc, ih hf']

/-- A colon-free string splits into the single field it is. -/
theorem splitColon_no_colon (f : List Char) (hf : ∀ c ∈ f, c ≠ ':') :
    splitColon f = [f] := by
  induction f with
  | nil => rfl
  | cons c f ih =>
      have hc : c ≠ ':' := hf c (List.mem_cons_self c f)
      have hf' : ∀ x ∈ f, x ≠ ':' := fun x hx => hf x (List.mem_cons_of_mem c hx)
      rw [splitColon, if_neg hc, ih hf']

/-- C10: for every `DiskIOLimits` value `d` (fields within their Go
integer widths), parsing the six-field colon-separated text produced by
`d.String()` with `UnmarshalText` yields a value with the same `Major`,
`Minor`, `ReadBPS`, `WriteBPS`, `ReadIOPS` and `WriteIOPS` and an empty
`Device` — the round trip that carries IO limits intact across the
re-exec command line (`ProcSelfArgMaker` passes `--io iolim.String()`,
cli/server.go, and the child's kong parser feeds it back through
`UnmarshalText`). -/
theorem diskio_roundtrip (d : DiskIOLimits)
    (hmaj : d.major < 2 ^ 32) (hmin : d.minor < 2 ^ 32)
    (hrb : d.readBPS < 2 ^ 64) (hwb : d.writeBPS < 2 ^ 64)
    (hri : d.readIOPS < 2 ^ 32) (hwi : d.writeIOPS < 2 ^ 32) :
    unmarshalDiskIOLimits (DiskIOLimits.text d) =
      some { device := [], major := d.major, minor := d.minor,
             readBPS := d.readBPS, writeBPS := d.writeBPS,
             readIOPS := d.readIOPS, writeIOPS := d.writeIOPS } := by
  have hsplit : splitColon (DiskIOLimits.text d) =
      [formatUintDec d.major, formatUintDec d.minor, formatUintDec d.readBPS,
       formatUintDec d.writeBPS, formatUintDec d.readIOPS,
       formatUintDec d.writeIOPS] := by
    rw [DiskIOLimits.text,
      splitColon_append _ _ (formatUintDec_no_colon _),
      splitColon_append _ _ (formatUintDec_no_colon _),
      splitColon_append _ _ (formatUintDec_no_colon _),
      splitColon_append _ _ (formatUintDec_no_colon _),
      splitColon_append _ _ (formatUintDec_no_colon _),
      splitColon_no_colon _ (formatUintDec_no_colon _)]
  rw [unmarshalDiskIOLimits, hsplit]
  simp [parseVal_formatUintDec _ _ _ hmaj, parseVal_formatUintDec _ _ _ hmin,
    parseVal_formatUintDec _ _ _ hrb, parseVal_formatUintDec _ _ _ hwb,
    parseVal_formatUintDec _ _ _ hri, parseVal_formatUintDec _ _ _ hwi]

/-- C10 witness: the round trip evaluated at a concrete limit whose
device path is non-empty, showing the numeric fields survive and the
device is dropped. -/
theorem diskio_roundtrip_witness :
    unmarshalDiskIOLimits (DiskIOLimits.text
      { device := ['/', 'd', 'e', 'v', '/', 's', 'd', 'a'], major := 8,
        minor := 16, readBPS := 1000000, writeBPS := 2000000,
        readIOPS := 100, writeIOPS := 200 }) =
      some { device := [], major := 8, minor := 16, readBPS := 1000000,
             writeBPS := 2000000, readIOPS := 100, writeIOPS := 200 } :=
  diskio_roundtrip _ (by norm_num) (by norm_num) (by norm_num) (by norm_num)
    (by norm_num) (by norm_num)

end Jobber
